import Mathlib

/-!
Verification of the per-frame lane-boundary tracker of `src/p2.py`.

The embedding is shallow: the tracker state (the global `FRAMES` list) is passed
explicitly, floating-point numbers are modelled as rationals, numpy arrays as
lists, and a Python attribute that may be absent (set only on one branch of
`Line.__init__`) is modelled as an `Option` field; reading such a field goes
through `Option.bind`, so `none` propagating to a result models a Python
`AttributeError` / `IndexError` style crash of the corresponding code path.
`np.polyfit(y, x, 2)` (an external library call) is modelled as the exact
ordinary-least-squares solution of the degree-2 normal equations over ℚ,
which is the documented mathematical contract of `polyfit`.
-/

namespace P2

/-- Constant from p2.py line 22: `METERS_PER_PIXEL_X = 3.7/700`. -/
def METERS_PER_PIXEL_X : ℚ := 37 / 7000

/-- Constant from p2.py line 23: `METERS_PER_PIXEL_Y = 30/720`. -/
def METERS_PER_PIXEL_Y : ℚ := 30 / 720

/-- Constant from p2.py line 29. -/
def AVERAGE_OVER_X_FRAMES : ℕ := 7

/-- Constant from p2.py line 34. -/
def MIN_PIXELS_FOR_VALID_LINE : ℕ := 3000

/-- Constant from p2.py line 40: `SLOPE_TOLERANCE = 1.2`. -/
def SLOPE_TOLERANCE : ℚ := 6 / 5

/-- Three polynomial coefficients (a, b, c) of x = a·y² + b·y + c,
the result of `np.polyfit(y, x, 2)`. -/
abbrev Coeffs := ℚ × ℚ × ℚ

/-- Evaluation of a degree-2 polynomial, as written out at p2.py line 97:
`coeff[0] * y ** 2 + coeff[1] * y + coeff[2]`. -/
def polyEval (c : Coeffs) (y : ℚ) : ℚ :=
  c.1 * y ^ 2 + c.2.1 * y + c.2.2

/-- Determinant of a 3×3 matrix given row-wise. -/
def det3 (a b c d e f g h i : ℚ) : ℚ :=
  a * (e * i - f * h) - b * (d * i - f * g) + c * (d * h - e * g)

/-- Model of `np.polyfit(ys, xs, 2)`: the ordinary-least-squares degree-2 fit
of x as a function of y, computed exactly over ℚ by solving the normal
equations with Cramer rule.  For the inputs appearing in this development the
normal matrix is nonsingular, so this is exactly the least-squares solution
`np.polyfit` returns. -/
def polyfit (ys xs : List ℚ) : Coeffs :=
  let pts := List.zip ys xs
  let s : ℕ → ℚ := fun k => (pts.map (fun p => p.1 ^ k)).sum
  let t : ℕ → ℚ := fun k => (pts.map (fun p => p.2 * p.1 ^ k)).sum
  let d := det3 (s 4) (s 3) (s 2) (s 3) (s 2) (s 1) (s 2) (s 1) (s 0)
  let da := det3 (t 2) (s 3) (s 2) (t 1) (s 2) (s 1) (t 0) (s 1) (s 0)
  let db := det3 (s 4) (t 2) (s 2) (s 3) (t 1) (s 1) (s 2) (t 0) (s 0)
  let dc := det3 (s 4) (s 3) (t 2) (s 3) (s 2) (t 1) (s 2) (s 1) (t 0)
  (da / d, db / d, dc / d)

/-- Model of `np.linspace(0, height-1, height)` (p2.py line 96): the list
`[0, 1, ..., height-1]` as rationals. -/
def linspace (height : ℕ) : List ℚ :=
  (List.range height).map (fun (i : ℕ) => (i : ℚ))

/-- The `Line` class of p2.py (lines 79-141).  Fields that Python sets only on
the fitted branch of `__init__` are `Option`s; `none` means the attribute was
never set, so reading it would raise `AttributeError`.  The curvature field
stores the square of the curvature radius
`R = (1 + (2a·maxy + b)²)^1.5 / |2a|` (p2.py line 114): the square avoids the
irrational power 1.5 while determining R; the unguarded division is kept.  The
`world_poly` local of `__init__` is recorded as a field so that the world-space
refit is observable. -/
structure Line where
  fitx : List ℚ
  fity : List ℚ
  lane_pixels_x : List ℚ
  lane_pixels_y : List ℚ
  detected : Bool
  line_coefficients : Option Coeffs
  world_poly : Option Coeffs
  curvature_sq : Option ℚ
  upper_slope : Option ℚ
  mid_slope : Option ℚ
  lower_slope : Option ℚ
deriving DecidableEq

/-- The constructor `Line.__init__(x_pixels, y_pixels, height, detected)`
(p2.py lines 80-120).  If either pixel list is empty, no fit is attempted and
`detected` is forced to `False`; otherwise a degree-2 polynomial is fitted,
sampled over `[0, height)`, refitted in world space, and the slopes at the
top, middle and bottom sample are recorded.  For `height = 0` the source
would raise on `np.max` and on the slope indexing of an empty array; the
model uses defaults there, and every theorem about those derived fields
assumes a positive image height. -/
def mkLine (x_pixels y_pixels : List ℚ) (height : ℕ) (detected : Bool) : Line :=
  if 0 < y_pixels.length ∧ 0 < x_pixels.length then
    let c := polyfit y_pixels x_pixels
    let fity := linspace height
    let fitx := fity.map (fun y => polyEval c y)
    let wfity := fity.map (fun y => y * METERS_PER_PIXEL_Y)
    let wfitx := fitx.map (fun x => x * METERS_PER_PIXEL_X)
    let maxy := (wfity.max?).getD 0
    let w := polyfit wfity wfitx
    { fitx := fitx
      fity := fity
      lane_pixels_x := x_pixels
      lane_pixels_y := y_pixels
      detected := detected
      line_coefficients := some c
      world_poly := some w
      curvature_sq := some (((1 + (2 * w.1 * maxy + w.2.1) ^ 2) ^ 3) / (2 * w.1) ^ 2)
      upper_slope := some (2 * c.1 * (fity.getD 0 0) + c.2.1)
      mid_slope := some (2 * c.1 * (fity.getD (height / 2) 0) + c.2.1)
      lower_slope := some (2 * c.1 * (fity.getD (height - 1) 0) + c.2.1) }
  else
    { fitx := []
      fity := []
      lane_pixels_x := x_pixels
      lane_pixels_y := y_pixels
      detected := false
      line_coefficients := none
      world_poly := none
      curvature_sq := none
      upper_slope := none
      mid_slope := none
      lower_slope := none }

/-- The method `Line.isValid` (p2.py lines 122-129), modelled conjunct by
conjunct in Python evaluation order, including short-circuiting.  Note the
source reads `abs(self.upper_slope < SLOPE_TOLERANCE)`: the comparison is done
first and `abs` is applied to the resulting boolean, so as a truth value the
conjunct is just the signed comparison `slope < SLOPE_TOLERANCE`; the same
holds for the mid and lower slope conjuncts.  The triple `Coeffs` always has
length 3, so the `len(...) == 3` conjunct is `True` whenever the attribute
exists.  Result `none` models an `AttributeError` on a field that was never
set; Python callers only use the truthiness of the returned value, which the
`Bool` preserves. -/
def Line.isValid (l : Line) : Option Bool :=
  if !l.detected then some false
  else
    match l.line_coefficients with
    | none => none
    | some _ =>
      if !(decide (MIN_PIXELS_FOR_VALID_LINE < l.lane_pixels_x.length)) then some false
      else
        match l.upper_slope, l.lower_slope with
        | some us, some ls =>
          if !(decide (|us - ls| < 6 / 5)) then some false
          else if !(decide (us < SLOPE_TOLERANCE)) then some false
          else
            match l.mid_slope with
            | some ms =>
              if !(decide (ms < SLOPE_TOLERANCE)) then some false
              else some (decide (ls < SLOPE_TOLERANCE))
            | none => none
        | _, _ => none

/-- The method `Line.getLowestLinePoint` (p2.py lines 139-141):
`np.max(self.fity)` (raising on an empty array, hence `Option`), then the
polynomial evaluated there. -/
def Line.getLowestLinePoint (l : Line) : Option ℚ := do
  let y ← l.fity.max?
  let c ← l.line_coefficients
  pure (polyEval c y)

/-- Well-formedness invariant established by the constructor (for positive
image height): whenever `detected` is true the construction took the fitted
branch, so every derived attribute exists and the sampled lists are nonempty. -/
def Line.WF (l : Line) : Prop :=
  l.detected = true →
    (l.line_coefficients.isSome ∧ l.world_poly.isSome ∧ l.curvature_sq.isSome ∧
     l.upper_slope.isSome ∧ l.mid_slope.isSome ∧ l.lower_slope.isSome ∧
     l.fity ≠ [] ∧ l.fitx ≠ [])

instance (l : Line) : Decidable l.WF := by
  unfold Line.WF
  infer_instance

/-- Rounding of a rational to the nearest integer, ties to even: the rounding
of Python round() on floats. -/
def roundHalfEven (q : ℚ) : ℤ :=
  let f := ⌊q⌋
  let r := q - f
  if r < 1 / 2 then f
  else if 1 / 2 < r then f + 1
  else if f % 2 = 0 then f else f + 1

/-- Model of Python `round(q, 2)`. -/
def pyRound2 (q : ℚ) : ℚ :=
  (roundHalfEven (q * 100) : ℚ) / 100

/-- The function `measure_offset(left_line, right_line, width)`
(p2.py lines 148-166), including its `round(..., 2)`. -/
def measure_offset (left_line right_line : Line) (width : ℚ) : Option ℚ := do
  let rightmax ← right_line.getLowestLinePoint
  let leftmax ← left_line.getLowestLinePoint
  let lane_center := (rightmax + leftmax) / 2
  let center_screen := width / 2
  pure (pyRound2 ((center_screen - lane_center) * METERS_PER_PIXEL_X))

/-- The `Side` enum of p2.py (lines 54-56). -/
inductive Side where
  | LEFT
  | RIGHT
deriving DecidableEq

/-- The `Frame` class of p2.py (lines 65-69).  In the source the two line
attributes start as `None` and are assigned before the frame is appended to
`FRAMES`; only appended frames are ever read back, so the model gives every
`Frame` both lines. -/
structure Frame where
  frame_number : ℕ
  left_line : Line
  right_line : Line

/-- The side selection `if side is Side.LEFT: ...left_line else: ...right_line`
used at p2.py lines 234-241. -/
def frameLine (side : Side) (f : Frame) : Line :=
  if side = Side.LEFT then f.left_line else f.right_line

/-- The loop body of `getLastValidLines` (p2.py lines 231-242), walking a list
of frames that is already ordered most-recent-first (the source walks
`FRAMES[frame_number]` down to `FRAMES[0]`) while `count` is positive.
`none` models the `isValid` call raising on a malformed line. -/
def collectValidLines (side : Side) : List Frame → ℕ → Option (List Line)
  | _, 0 => some []
  | [], _ + 1 => some []
  | f :: rest, count + 1 => do
    let ln := frameLine side f
    let v ← ln.isValid
    if v then do
      let tl ← collectValidLines side rest count
      pure (ln :: tl)
    else
      collectValidLines side rest (count + 1)

/-- The function `getLastValidLines(side, count)` (p2.py lines 223-244) with
the globals `FRAMES` and `frame_number` passed explicitly; at every call site
`frame_number` indexes the last element of `FRAMES`, so the backward walk is a
walk of the reversed list. -/
def getLastValidLines (side : Side) (count : ℕ) (frames : List Frame) : Option (List Line) :=
  collectValidLines side frames.reverse count

/-- The warped binary mask consumed by `find_lane_pixels`: image dimensions
plus the coordinates `(y, x)` of the nonzero pixels (`binary_warped.nonzero()`,
p2.py lines 350-352), each nonzero pixel having value 1. -/
structure Mask where
  width : ℕ
  height : ℕ
  pixels : List (ℕ × ℕ)

/-- Column `x` of `np.sum(binary_warped[height//2:, :], axis=0)`
(p2.py line 364): the number of nonzero pixels of the bottom half of column
`x`, for a mask whose nonzero pixels have value 1. -/
def histogramAt (m : Mask) (x : ℕ) : ℕ :=
  (m.pixels.filter (fun p => decide (m.height / 2 ≤ p.1) && decide (p.2 = x))).length

/-- Helper of `argmaxList`: fold keeping the first index of the maximum. -/
def argmaxAux : List ℕ → ℕ → ℕ → ℕ → ℕ
  | [], _, bi, _ => bi
  | v :: rest, i, bi, bv =>
    if bv < v then argmaxAux rest (i + 1) i v else argmaxAux rest (i + 1) bi bv

/-- Model of `np.argmax`: index of the first occurrence of the maximum
(0 for the empty list). -/
def argmaxList : List ℕ → ℕ
  | [] => 0
  | v :: rest => argmaxAux rest 1 0 v

/-- The seed `leftx_base = np.argmax(histogram[:midpoint])` (p2.py line 369). -/
def leftxBase (m : Mask) : ℕ :=
  argmaxList ((List.range (m.width / 2)).map (histogramAt m))

/-- The seed `rightx_base = np.argmax(histogram[midpoint:]) + midpoint`
(p2.py line 370). -/
def rightxBase (m : Mask) : ℕ :=
  argmaxList ((List.range (m.width - m.width / 2)).map (fun i => histogramAt m (i + m.width / 2))) +
    m.width / 2

/-- State threaded through the sliding-window loop of `find_lane_pixels`:
current window centers and the pixels collected so far for each side. -/
structure SearchState where
  leftx_current : ℕ
  rightx_current : ℕ
  left_found : List (ℕ × ℕ)
  right_found : List (ℕ × ℕ)

/-- The nonzero pixels inside one window (p2.py lines 390-391):
`win_y_low <= y < win_y_high` and `center - 75 <= x < center + 75`
(`window_margin = 75`). -/
def windowPixels (pixels : List (ℕ × ℕ)) (ylow yhigh xc : ℕ) : List (ℕ × ℕ) :=
  pixels.filter (fun p =>
    decide (ylow ≤ p.1) && decide (p.1 < yhigh) &&
    decide ((xc : ℤ) - 75 ≤ (p.2 : ℤ)) && decide ((p.2 : ℤ) < (xc : ℤ) + 75))

/-- One iteration of the sliding-window loop (p2.py lines 378-403): collect the
window pixels for both sides and recenter a side when at least `minpix = 75`
pixels were found, the new center being `np.int(np.mean(...))`, i.e. the
integer part of the mean of the collected x coordinates. -/
def windowStep (m : Mask) (window_height window : ℕ) (s : SearchState) : SearchState :=
  let win_y_low := m.height - (window + 1) * window_height
  let win_y_high := m.height - window * window_height
  let good_left := windowPixels m.pixels win_y_low win_y_high s.leftx_current
  let good_right := windowPixels m.pixels win_y_low win_y_high s.rightx_current
  { leftx_current :=
      if 75 ≤ good_left.length then (good_left.map (fun p => p.2)).sum / good_left.length
      else s.leftx_current
    rightx_current :=
      if 75 ≤ good_right.length then (good_right.map (fun p => p.2)).sum / good_right.length
      else s.rightx_current
    left_found := s.left_found ++ good_left
    right_found := s.right_found ++ good_right }

/-- The cold-start histogram-plus-sliding-window search (p2.py lines 363-407):
9 windows of height `height // 9`, processed from the bottom of the image up,
seeded at the two histogram peaks; returns the concatenated collected pixels
of each side. -/
def slidingWindows (m : Mask) : List (ℕ × ℕ) × List (ℕ × ℕ) :=
  let window_height := m.height / 9
  let s0 : SearchState := ⟨leftxBase m, rightxBase m, [], []⟩
  let s := (List.range 9).foldl (fun s window => windowStep m window_height window s) s0
  (s.left_found, s.right_found)

/-- The warm-start polynomial-neighborhood selection (p2.py lines 415-418):
all nonzero pixels with `poly(y) - 50 < x < poly(y) + 50`
(`poly_margin = 50`, both comparisons strict in the source). -/
def polySearch (m : Mask) (c : Coeffs) : List (ℕ × ℕ) :=
  m.pixels.filter (fun p =>
    decide (polyEval c (p.1 : ℚ) - 50 < (p.2 : ℚ)) &&
    decide ((p.2 : ℚ) < polyEval c (p.1 : ℚ) + 50))

/-- The branch condition of p2.py line 362:
`(left_line is None or not left_line.isValid()) or (right_line is None or not
right_line.isValid())`, with Python short-circuit evaluation; `some true`
selects the cold start, `some false` the warm start. -/
def coldStartCond : Option Line → Option Line → Option Bool
  | none, _ => some true
  | some l, r? => do
    let lv ← l.isValid
    if !lv then pure true
    else
      match r? with
      | none => pure true
      | some r => do
        let rv ← r.isValid
        pure (!rv)

/-- Splitting a pixel list into the x and then the y coordinate lists, as
`nonzerox[inds]` and `nonzeroy[inds]` do at p2.py lines 422-425. -/
def toQxy (ps : List (ℕ × ℕ)) : List ℚ × List ℚ :=
  (ps.map (fun (p : ℕ × ℕ) => ((p.2 : ℚ))), ps.map (fun (p : ℕ × ℕ) => ((p.1 : ℚ))))

/-- The quantity `np.min(np.absolute(right_fitx - left_fitx))` of p2.py
line 439; `none` models `np.min` raising on an empty array. -/
def minAbsGap (rx lx : List ℚ) : Option ℚ :=
  (List.zipWith (fun a b => |a - b|) rx lx).min?

/-- The cross-validation condition of p2.py line 439, with Python left-to-right
short-circuiting: the minimum gap is only computed when both lines are valid. -/
def crossCheck (l r : Line) : Option Bool := do
  let lv ← l.isValid
  if !lv then pure false
  else do
    let rv ← r.isValid
    if !rv then pure false
    else do
      let g ← minAbsGap r.fitx l.fitx
      pure (decide (g < 300))

/-- The cross-validation block of p2.py lines 439-441: when the condition
holds, both lines get `detected = False`; otherwise they are untouched. -/
def validateLines (l r : Line) : Option (Line × Line) := do
  let c ← crossCheck l r
  if c then pure ({ l with detected := false }, { r with detected := false })
  else pure (l, r)

/-- The function `find_lane_pixels(binary_warped, left_line, right_line)`
(p2.py lines 346-443): strategy selection, pixel search, fitting of both new
lines (with `detected = True` passed in), and cross-validation. -/
def find_lane_pixels (m : Mask) (left_line right_line : Option Line) :
    Option (Line × Line) := do
  let cold ← coldStartCond left_line right_line
  let pix ←
    if cold then pure (slidingWindows m)
    else
      match left_line, right_line with
      | some l, some r => do
        let left_poly ← l.line_coefficients
        let right_poly ← r.line_coefficients
        pure (polySearch m left_poly, polySearch m right_poly)
      | _, _ => none
  let left := toQxy pix.1
  let right := toQxy pix.2
  let new_left_line := mkLine left.1 left.2 m.height true
  let new_right_line := mkLine right.1 right.2 m.height true
  validateLines new_left_line new_right_line

/-- Sequencing of the attribute reads `line.line_coefficients` done by the list
comprehensions at p2.py lines 586 and 590; `none` models an `AttributeError`. -/
def seqCoeffs : List Line → Option (List Coeffs)
  | [] => some []
  | l :: ls => do
    let c ← l.line_coefficients
    let cs ← seqCoeffs ls
    pure (c :: cs)

/-- Sequencing of the attribute reads `line.curvature` done by the list
comprehensions at p2.py lines 603-604 (the curvature field is modelled by its
square). -/
def seqCurv : List Line → Option (List ℚ)
  | [] => some []
  | l :: ls => do
    let c ← l.curvature_sq
    let cs ← seqCurv ls
    pure (c :: cs)

/-- The coefficient-wise `np.mean(coeff_list, axis=0)` of p2.py lines 587 and
591.  `np.mean` of an empty list is `nan`, and the subsequent indexing of that
`nan` inside `fillLane` raises; `none` models that failure. -/
def meanCoeffs (cs : List Coeffs) : Option Coeffs :=
  match cs with
  | [] => none
  | _ =>
    some (((cs.map (fun c => c.1)).sum) / cs.length,
          ((cs.map (fun c => c.2.1)).sum) / cs.length,
          ((cs.map (fun c => c.2.2)).sum) / cs.length)

/-- The smoothed lane estimate computed at p2.py lines 582-591: the
coefficient-wise mean of the up-to-7 most recent valid lines of a side. -/
def smoothedEstimate (side : Side) (frames : List Frame) : Option Coeffs := do
  let ls ← getLastValidLines side AVERAGE_OVER_X_FRAMES frames
  let cs ← seqCoeffs ls
  meanCoeffs cs

/-- Results of one `process_frame` call that are visible outside rendering:
the two averaged polynomials and the offset. -/
structure FrameOutputs where
  avg_left : Coeffs
  avg_right : Coeffs
  offset : ℚ
deriving DecidableEq

/-- The fallback of p2.py lines 570-576 for one side: keep the freshly fitted
line when it is valid, otherwise substitute
`getLastValidLines(side, 1)[0]` — the unchecked `[0]` indexing is
`List.head?`, whose `none` on an empty result models the `IndexError`. -/
def currentLine (side : Side) (n : Line) (framesNew : List Frame) : Option Line := do
  let v ← n.isValid
  if v then pure n
  else do
    let vs ← getLastValidLines side 1 framesNew
    vs.head?

/-- The post-append tail of `process_frame` (p2.py lines 570-615): the
per-side fallback to the last valid line, the averaging of the last valid
lines of each side (lookup and mean grouped per side; the grouping cannot
change the result because the steps of the two sides do not interact), the
curvature attribute reads feeding the screen text, and the offset
measurement.  Pure rendering (`fillLane`, `cv2.putText`) is omitted except
for its only failure point, the indexing of an empty-history average, which
`meanCoeffs` models. -/
def frameTail (new_left_line new_right_line : Line) (framesNew : List Frame) (w : ℚ) :
    Option FrameOutputs := do
  let current_left_line ← currentLine Side.LEFT new_left_line framesNew
  let current_right_line ← currentLine Side.RIGHT new_right_line framesNew
  let valid_left_lines ← getLastValidLines Side.LEFT AVERAGE_OVER_X_FRAMES framesNew
  let valid_right_lines ← getLastValidLines Side.RIGHT AVERAGE_OVER_X_FRAMES framesNew
  let lcs ← seqCoeffs valid_left_lines
  let avg_left ← meanCoeffs lcs
  let rcs ← seqCoeffs valid_right_lines
  let avg_right ← meanCoeffs rcs
  let _ ← seqCurv valid_left_lines
  let _ ← seqCurv valid_right_lines
  let offset ← measure_offset current_left_line current_right_line w
  pure ⟨avg_left, avg_right, offset⟩

/-- The tracker core of `process_frame(frame)` (p2.py lines 519-617) with the
globals passed explicitly: the image-processing front end (undistort,
threshold, region of interest, warp) is the out-of-scope mask producer, so the
model takes the warped binary mask directly.  The frame counter is incremented
(`frame_number = frames.length` after the increment), the previous frame
lines are read when one exists, `find_lane_pixels` is run, the new frame is
appended, and the post-append tail is evaluated.  The outer `Option` is a
failure before the append (unreachable on well-formed histories); the inner
`Option` in the pair is a failure after the append. -/
def process_frame (frames : List Frame) (m : Mask) :
    Option (List Frame × Option FrameOutputs) := do
  let frame_number := frames.length
  let prev_left_line := (frames.getLast?).map (fun f => f.left_line)
  let prev_right_line := (frames.getLast?).map (fun f => f.right_line)
  let lines ← find_lane_pixels m prev_left_line prev_right_line
  let fr : Frame := ⟨frame_number, lines.1, lines.2⟩
  let framesNew := frames ++ [fr]
  pure (framesNew, frameTail lines.1 lines.2 framesNew (m.width : ℚ))

/-- Histories whose lines all satisfy the constructor invariant. -/
def WFhistory (frames : List Frame) : Prop :=
  ∀ f ∈ frames, f.left_line.WF ∧ f.right_line.WF

/-- A side has at least one valid line somewhere in the history. -/
def hasValidLine (side : Side) (frames : List Frame) : Prop :=
  ∃ f ∈ frames, (frameLine side f).isValid = some true

/-- Number of valid lines of a side in a history. -/
def countValid (side : Side) (frames : List Frame) : ℕ :=
  (frames.filter (fun f => decide ((frameLine side f).isValid = some true))).length

/-- The coefficient triples of the valid lines of a side, in history order. -/
def validCoeffs (side : Side) (frames : List Frame) : List Coeffs :=
  (frames.filter (fun f => decide ((frameLine side f).isValid = some true))).filterMap
    (fun f => (frameLine side f).line_coefficients)

/-- The divisor `abs(2 * world_poly[0])` of the curvature formula at
p2.py line 114. -/
def curvatureDivisor (l : Line) : Option ℚ :=
  l.world_poly.map (fun w => |2 * w.1|)

/-! Concrete inputs used by specific evaluations of the code. -/

/-- A pixel set of 3001 points lying exactly on the steep straight line
x = -5·y, with y values 0, 1 and 2. -/
def c1ys : List ℚ := List.replicate 1001 0 ++ (List.replicate 1000 1 ++ List.replicate 1000 2)

/-- The x coordinates matching `c1ys` on the line x = -5·y. -/
def c1xs : List ℚ := List.replicate 1001 0 ++ (List.replicate 1000 (-5) ++ List.replicate 1000 (-10))

/-- An empty mask: width 4, height 3, no nonzero pixels. -/
def mask0 : Mask := ⟨4, 3, []⟩

def wLine : Line :=
  { fitx := [500], fity := [0], lane_pixels_x := List.replicate 3001 500,
    lane_pixels_y := List.replicate 3001 0, detected := true,
    line_coefficients := some (0, 0, 500), world_poly := some (0, 0, 1),
    curvature_sq := some 1, upper_slope := some 0, mid_slope := some 0, lower_slope := some 0 }

def badLine : Line := mkLine [] [] 3 true

def frameA : Frame := ⟨0, wLine, badLine⟩

def frameB : Frame := ⟨1, badLine, badLine⟩

/-! Unfolding equations and invariants of the `Line` constructor. -/

theorem mkLine_of_pos (xs ys : List ℚ) (h : ℕ) (d : Bool)
    (hy : 0 < ys.length) (hx : 0 < xs.length) :
    mkLine xs ys h d =
      { fitx := (linspace h).map (fun y => polyEval (polyfit ys xs) y)
        fity := linspace h
        lane_pixels_x := xs
        lane_pixels_y := ys
        detected := d
        line_coefficients := some (polyfit ys xs)
        world_poly := some (polyfit ((linspace h).map (fun y => y * METERS_PER_PIXEL_Y))
          (((linspace h).map (fun y => polyEval (polyfit ys xs) y)).map
            (fun x => x * METERS_PER_PIXEL_X)))
        curvature_sq := some
          (((1 + (2 * (polyfit ((linspace h).map (fun y => y * METERS_PER_PIXEL_Y))
              (((linspace h).map (fun y => polyEval (polyfit ys xs) y)).map
                (fun x => x * METERS_PER_PIXEL_X))).1 *
              ((((linspace h).map (fun y => y * METERS_PER_PIXEL_Y)).max?).getD 0) +
              (polyfit ((linspace h).map (fun y => y * METERS_PER_PIXEL_Y))
              (((linspace h).map (fun y => polyEval (polyfit ys xs) y)).map
                (fun x => x * METERS_PER_PIXEL_X))).2.1) ^ 2) ^ 3) /
            (2 * (polyfit ((linspace h).map (fun y => y * METERS_PER_PIXEL_Y))
              (((linspace h).map (fun y => polyEval (polyfit ys xs) y)).map
                (fun x => x * METERS_PER_PIXEL_X))).1) ^ 2)
        upper_slope := some (2 * (polyfit ys xs).1 * ((linspace h).getD 0 0) + (polyfit ys xs).2.1)
        mid_slope := some (2 * (polyfit ys xs).1 * ((linspace h).getD (h / 2) 0) + (polyfit ys xs).2.1)
        lower_slope := some (2 * (polyfit ys xs).1 * ((linspace h).getD (h - 1) 0) + (polyfit ys xs).2.1) } := by
  unfold mkLine
  rw [if_pos ⟨hy, hx⟩]

theorem mkLine_of_neg (xs ys : List ℚ) (h : ℕ) (d : Bool)
    (hxy : xs = [] ∨ ys = []) :
    mkLine xs ys h d =
      { fitx := [], fity := [], lane_pixels_x := xs, lane_pixels_y := ys,
        detected := false, line_coefficients := none, world_poly := none,
        curvature_sq := none, upper_slope := none, mid_slope := none,
        lower_slope := none } := by
  unfold mkLine
  rw [if_neg]
  intro hc
  rcases hxy with he | he <;> rcases hc with ⟨h1, h2⟩ <;>
    simp [he] at h1 h2

theorem linspace_ne_nil (h : ℕ) (hh : 0 < h) : linspace h ≠ [] := by
  simp [linspace, List.map_eq_nil_iff, List.range_eq_nil]
  omega

theorem mkLine_WF (xs ys : List ℚ) (h : ℕ) (d : Bool) (hh : 0 < h) :
    (mkLine xs ys h d).WF := by
  by_cases hc : 0 < ys.length ∧ 0 < xs.length
  · rw [mkLine_of_pos xs ys h d hc.1 hc.2]
    intro _
    refine ⟨rfl, rfl, rfl, rfl, rfl, rfl, linspace_ne_nil h hh, ?_⟩
    simp only [ne_eq, List.map_eq_nil_iff]
    exact linspace_ne_nil h hh
  · have hxy : xs = [] ∨ ys = [] := by
      by_contra hne
      push_neg at hne
      exact hc ⟨List.length_pos.mpr hne.2, List.length_pos.mpr hne.1⟩
    rw [mkLine_of_neg xs ys h d hxy]
    intro hdet
    simp at hdet

theorem WF_detected_false (l : Line) : ({ l with detected := false } : Line).WF := by
  intro hdet
  simp at hdet

theorem isValid_of_not_detected (l : Line) (h : l.detected = false) :
    l.isValid = some false := by
  simp [Line.isValid, h]

theorem isValid_isSome_of_WF (l : Line) (hW : l.WF) : l.isValid.isSome := by
  by_cases hd : l.detected = true
  · obtain ⟨hc, _, _, hus, hms, hls, _, _⟩ := hW hd
    obtain ⟨c, hc⟩ := Option.isSome_iff_exists.mp hc
    obtain ⟨us, hus⟩ := Option.isSome_iff_exists.mp hus
    obtain ⟨ms, hms⟩ := Option.isSome_iff_exists.mp hms
    obtain ⟨ls, hls⟩ := Option.isSome_iff_exists.mp hls
    simp only [Line.isValid, hd, hc, hus, hms, hls, Bool.not_true, Bool.false_eq_true,
      if_false]
    split <;> try simp
    split <;> try simp
    split <;> try simp
    split <;> simp
  · simp at hd
    rw [isValid_of_not_detected l hd]
    rfl

theorem fields_of_isValid_true (l : Line) (h : l.isValid = some true) :
    l.detected = true ∧ l.line_coefficients.isSome ∧ l.upper_slope.isSome ∧
      l.mid_slope.isSome ∧ l.lower_slope.isSome ∧
      MIN_PIXELS_FOR_VALID_LINE < l.lane_pixels_x.length := by
  unfold Line.isValid at h
  split at h
  · exact absurd h (by simp)
  next hd =>
    have hdet : l.detected = true := by
      revert hd
      cases l.detected <;> simp
    split at h
    · exact absurd h (by simp)
    next c hcc =>
      split at h
      · exact absurd h (by simp)
      next hlen =>
        have hlen2 : MIN_PIXELS_FOR_VALID_LINE < l.lane_pixels_x.length := by
          revert hlen
          by_cases hq : MIN_PIXELS_FOR_VALID_LINE < l.lane_pixels_x.length <;> simp [hq]
        split at h
        next us ls hus hls =>
          split at h
          · exact absurd h (by simp)
          split at h
          · exact absurd h (by simp)
          split at h
          next ms hms =>
            exact ⟨hdet, by simp [hcc], by simp [hus], by simp [hms], by simp [hls], hlen2⟩
          next hnone => exact absurd h (by simp)
        next hw => exact absurd h (by simp)

/-! Concrete inputs used to evaluate the code on specific pixel sets. -/



theorem c1xs_len : c1xs.length = 3001 := by
  rw [c1xs]
  simp only [List.length_append, List.length_replicate]

theorem c1ys_len : c1ys.length = 3001 := by
  rw [c1ys]
  simp only [List.length_append, List.length_replicate]

theorem c1_polyfit : polyfit c1ys c1xs = (0, -5, 0) := by
  have hzip : List.zip c1ys c1xs =
      List.replicate 1001 ((0 : ℚ), (0 : ℚ)) ++
        (List.replicate 1000 (1, -5) ++ List.replicate 1000 (2, -10)) := by
    rw [c1ys, c1xs, List.zip_append (by simp only [List.length_replicate]),
      List.zip_append (by simp only [List.length_replicate]),
      List.zip_replicate', List.zip_replicate', List.zip_replicate']
  unfold polyfit
  rw [hzip]
  simp only [List.map_append, List.map_replicate, List.sum_append, List.sum_replicate, det3,
    nsmul_eq_mul, Prod.mk.injEq]
  norm_num

/-- C1: evaluation of the code at the failing input.  A line fitted from 3001
pixels lying exactly on x = -5·y (image height 3) has slope -5 at the top,
middle and bottom of the sampled curve, whose absolute value 5 is far above
the tolerance 1.2, yet `isValid()` accepts it: the source tests
`abs(slope < tolerance)`, the absolute value of a boolean, so the slope
magnitude is never compared against the tolerance and only the signed
comparison remains.  The claimed characterisation of `isValid` is the
intended one; the code deviates from it on every steeply descending line. -/
theorem isValid_accepts_steep_slope :
    (mkLine c1xs c1ys 3 true).isValid = some true ∧
    (mkLine c1xs c1ys 3 true).upper_slope = some (-5) ∧
    (mkLine c1xs c1ys 3 true).mid_slope = some (-5) ∧
    (mkLine c1xs c1ys 3 true).lower_slope = some (-5) ∧
    ¬(|(-5 : ℚ)| < SLOPE_TOLERANCE) := by
  have hls : linspace 3 = [0, 1, 2] := by norm_num [linspace, List.range_succ]
  rw [mkLine_of_pos _ _ _ _ (by rw [c1ys_len]; norm_num) (by rw [c1xs_len]; norm_num),
    c1_polyfit, hls]
  refine ⟨?_, by norm_num, by norm_num, by norm_num, by norm_num [SLOPE_TOLERANCE]⟩
  simp only [Line.isValid, c1xs_len]
  norm_num [SLOPE_TOLERANCE, MIN_PIXELS_FOR_VALID_LINE]

/-- C10: a curve constructed from an empty pixel set has `detected = false`
and `isValid()` is total on it: it returns false by short-circuiting on the
detected flag, never reading the coefficient and slope attributes that were
never set and never failing, for every image height and every `detected`
argument passed by the caller. -/
theorem isValid_total_on_empty_pixels (h : ℕ) (d : Bool) :
    (mkLine [] [] h d).detected = false ∧ (mkLine [] [] h d).isValid = some false := by
  rw [mkLine_of_neg [] [] h d (Or.inl rfl)]
  exact ⟨rfl, rfl⟩

/-- C7: if either pixel list is empty, the constructed curve has
`detected = false` and no fit is attempted (the coefficients attribute is
never set, and no exception is raised), even when the caller passed
`detected = true`; if both are non-empty, a least-squares degree-2 polynomial
of x as a function of y is fitted and sampled at every integer y in
`[0, imageHeight)`, and the `detected` argument is kept. -/
theorem mkLine_fit_spec :
    (∀ (xs ys : List ℚ) (h : ℕ) (d : Bool), xs = [] ∨ ys = [] →
      (mkLine xs ys h d).detected = false ∧ (mkLine xs ys h d).line_coefficients = none) ∧
    (∀ (xs ys : List ℚ) (h : ℕ) (d : Bool), xs ≠ [] → ys ≠ [] →
      (mkLine xs ys h d).detected = d ∧
      (mkLine xs ys h d).line_coefficients = some (polyfit ys xs) ∧
      (mkLine xs ys h d).fity = linspace h ∧
      (mkLine xs ys h d).fitx = (linspace h).map (fun y => polyEval (polyfit ys xs) y)) := by
  constructor
  · intro xs ys h d hxy
    rw [mkLine_of_neg xs ys h d hxy]
    exact ⟨rfl, rfl⟩
  · intro xs ys h d hx hy
    rw [mkLine_of_pos xs ys h d (by simpa [List.length_pos] using hy)
      (by simpa [List.length_pos] using hx)]
    exact ⟨rfl, rfl, rfl, rfl⟩

/-- Witness for C7 at concrete inputs: an empty x list with a non-empty y list
forces `detected = false` with no coefficients even though `True` was passed,
and three pixels produce the fitted and sampled curve. -/
theorem mkLine_fit_spec_witness :
    ((mkLine [] [1] 4 true).detected = false ∧
      (mkLine [] [1] 4 true).line_coefficients = none) ∧
    ((mkLine [300, 300, 300] [0, 1, 2] 3 true).detected = true ∧
      (mkLine [300, 300, 300] [0, 1, 2] 3 true).line_coefficients =
        some (polyfit [0, 1, 2] [300, 300, 300]) ∧
      (mkLine [300, 300, 300] [0, 1, 2] 3 true).fity = linspace 3 ∧
      (mkLine [300, 300, 300] [0, 1, 2] 3 true).fitx =
        (linspace 3).map (fun y => polyEval (polyfit [0, 1, 2] [300, 300, 300]) y)) :=
  ⟨mkLine_fit_spec.1 [] [1] 4 true (Or.inl rfl),
   mkLine_fit_spec.2 [300, 300, 300] [0, 1, 2] 3 true (by simp) (by simp)⟩

/-- C9: the constructor computes curvature by scaling the sampled curve to
world space with the factors 3.7/700 and 30/720, refitting a degree-2
polynomial there, and dividing by `abs(2·a)` of the world-space fit; the
division is unguarded, and for the non-empty collinear pixel set
x = 2·y + 3 (y = 0..4, height 5) the world-space leading coefficient is
exactly 0, so the curvature computation divides by zero. -/
theorem curvature_divides_by_zero_on_collinear :
    (mkLine [3, 5, 7, 9, 11] [0, 1, 2, 3, 4] 5 true).lane_pixels_x ≠ [] ∧
    (mkLine [3, 5, 7, 9, 11] [0, 1, 2, 3, 4] 5 true).line_coefficients = some (0, 2, 3) ∧
    (mkLine [3, 5, 7, 9, 11] [0, 1, 2, 3, 4] 5 true).world_poly =
      some (0, 222 / 875, 111 / 7000) ∧
    curvatureDivisor (mkLine [3, 5, 7, 9, 11] [0, 1, 2, 3, 4] 5 true) = some 0 := by
  have hls : linspace 5 = [0, 1, 2, 3, 4] := by
    norm_num [linspace, List.range_succ]
  have hfit : polyfit [0, 1, 2, 3, 4] [3, 5, 7, 9, 11] = (0, 2, 3) := by
    norm_num [polyfit, det3, List.zip_cons_cons, Prod.ext_iff]
  rw [mkLine_of_pos _ _ _ _ (by norm_num) (by norm_num), hls, hfit]
  refine ⟨by simp, rfl, ?_, ?_⟩
  · show some (polyfit _ _) = _
    norm_num [polyEval, METERS_PER_PIXEL_X, METERS_PER_PIXEL_Y]
    norm_num [polyfit, det3, List.zip_cons_cons, Prod.ext_iff]
  · show Option.map _ (some (polyfit _ _)) = _
    norm_num [polyEval, METERS_PER_PIXEL_X, METERS_PER_PIXEL_Y]
    norm_num [polyfit, det3, List.zip_cons_cons, Prod.ext_iff]

/-- C8 (amended): the reported offset is the difference between the
image-center x and the lane-center x (the mean of the two lowest line points)
scaled by `METERS_PER_PIXEL_X` and then rounded to two decimal places, for
every pair of lines whose lowest point is defined. -/
theorem measure_offset_rounded (l r : Line) (w ll rr : ℚ)
    (hl : l.getLowestLinePoint = some ll) (hr : r.getLowestLinePoint = some rr) :
    measure_offset l r w = some (pyRound2 ((w / 2 - (rr + ll) / 2) * METERS_PER_PIXEL_X)) := by
  simp [measure_offset, hl, hr]

theorem lowest300 :
    (mkLine [300, 300, 300] [0, 1, 2] 3 true).getLowestLinePoint = some 300 := by
  have hls : linspace 3 = [0, 1, 2] := by norm_num [linspace, List.range_succ]
  have hfit : polyfit [0, 1, 2] [300, 300, 300] = (0, 0, 300) := by
    norm_num [polyfit, det3, List.zip_cons_cons, Prod.ext_iff]
  rw [mkLine_of_pos _ _ _ _ (by norm_num) (by norm_num), hls, hfit]
  show (do
    let y ← ([0, 1, 2] : List ℚ).max?
    let c ← some ((0 : ℚ), (0 : ℚ), (300 : ℚ))
    pure (polyEval c y)) = some 300
  have hmax : ([0, 1, 2] : List ℚ).max? = some 2 := by
    simp [List.max?]
  rw [hmax]
  norm_num [polyEval]

theorem lowest700 :
    (mkLine [700, 700, 700] [0, 1, 2] 3 true).getLowestLinePoint = some 700 := by
  have hls : linspace 3 = [0, 1, 2] := by norm_num [linspace, List.range_succ]
  have hfit : polyfit [0, 1, 2] [700, 700, 700] = (0, 0, 700) := by
    norm_num [polyfit, det3, List.zip_cons_cons, Prod.ext_iff]
  rw [mkLine_of_pos _ _ _ _ (by norm_num) (by norm_num), hls, hfit]
  show (do
    let y ← ([0, 1, 2] : List ℚ).max?
    let c ← some ((0 : ℚ), (0 : ℚ), (700 : ℚ))
    pure (polyEval c y)) = some 700
  have hmax : ([0, 1, 2] : List ℚ).max? = some 2 := by
    simp [List.max?]
  rw [hmax]
  norm_num [polyEval]

theorem lowest702 :
    (mkLine [702, 702, 702] [0, 1, 2] 3 true).getLowestLinePoint = some 702 := by
  have hls : linspace 3 = [0, 1, 2] := by norm_num [linspace, List.range_succ]
  have hfit : polyfit [0, 1, 2] [702, 702, 702] = (0, 0, 702) := by
    norm_num [polyfit, det3, List.zip_cons_cons, Prod.ext_iff]
  rw [mkLine_of_pos _ _ _ _ (by norm_num) (by norm_num), hls, hfit]
  show (do
    let y ← ([0, 1, 2] : List ℚ).max?
    let c ← some ((0 : ℚ), (0 : ℚ), (702 : ℚ))
    pure (polyEval c y)) = some 702
  have hmax : ([0, 1, 2] : List ℚ).max? = some 2 := by
    simp [List.max?]
  rw [hmax]
  norm_num [polyEval]

/-- C8 (counterexample): for a left curve with bottom x = 300, a right curve
with bottom x = 702 and image width 1000, the code reports -1/100 (the
converted difference rounded to two decimals), which differs from the raw
pixel difference converted by 3.7/700, namely -37/7000; so the offset does
not equal the unrounded conversion the claim states. -/
theorem measure_offset_not_exact_conversion :
    measure_offset (mkLine [300, 300, 300] [0, 1, 2] 3 true)
        (mkLine [702, 702, 702] [0, 1, 2] 3 true) 1000 = some (-1 / 100) ∧
      ¬((-1 / 100 : ℚ) = (1000 / 2 - ((702 : ℚ) + 300) / 2) * METERS_PER_PIXEL_X) := by
  constructor
  · simp only [measure_offset, lowest300, lowest702, Option.bind_eq_bind, Option.some_bind]
    norm_num [pyRound2, roundHalfEven, METERS_PER_PIXEL_X]
  · norm_num [METERS_PER_PIXEL_X]

/-- Witness for C8 as amended, at the concrete instance named by the claim:
bottom x values 300 and 700 with image width 1000 give offset exactly 0. -/
theorem measure_offset_rounded_witness :
    measure_offset (mkLine [300, 300, 300] [0, 1, 2] 3 true)
      (mkLine [700, 700, 700] [0, 1, 2] 3 true) 1000 = some 0 := by
  rw [measure_offset_rounded _ _ 1000 300 700 lowest300 lowest700]
  norm_num [pyRound2, roundHalfEven, METERS_PER_PIXEL_X]



theorem wLine_isValid : wLine.isValid = some true := by
  simp only [Line.isValid, wLine]
  norm_num [MIN_PIXELS_FOR_VALID_LINE, SLOPE_TOLERANCE, List.length_replicate]

theorem wLine_WF : wLine.WF := by
  intro _
  refine ⟨rfl, rfl, rfl, rfl, rfl, rfl, ?_, ?_⟩
  · rw [show wLine.fity = [0] from rfl]
    simp
  · rw [show wLine.fitx = [500] from rfl]
    simp

/-- C3: after either search strategy, if both fitted lines are independently
valid and the minimum over the sampled curve of the absolute horizontal gap
is below 300 pixels, cross-validation sets `detected = false` on both lines;
in every other case (either line invalid, or minimum gap at least 300) both
lines are returned completely unchanged. -/
theorem cross_validation_spec (l r : Line) (hl : l.WF) (hr : r.WF) :
    ((l.isValid = some true ∧ r.isValid = some true ∧
        (∃ g, minAbsGap r.fitx l.fitx = some g ∧ g < 300)) →
      validateLines l r = some ({ l with detected := false }, { r with detected := false })) ∧
    ((¬(l.isValid = some true) ∨ ¬(r.isValid = some true) ∨
        (∃ g, minAbsGap r.fitx l.fitx = some g ∧ 300 ≤ g)) →
      validateLines l r = some (l, r)) := by
  constructor
  · rintro ⟨hlv, hrv, g, hg, hglt⟩
    simp [validateLines, crossCheck, hlv, hrv, hg, hglt]
  · intro hcase
    obtain ⟨lb, hlb⟩ := Option.isSome_iff_exists.mp (isValid_isSome_of_WF l hl)
    obtain ⟨rb, hrb⟩ := Option.isSome_iff_exists.mp (isValid_isSome_of_WF r hr)
    rcases hcase with hnl | hnr | ⟨g, hg, hge⟩
    · have hlbf : lb = false := by
        cases lb
        · rfl
        · exact absurd hlb hnl
      subst hlbf
      simp [validateLines, crossCheck, hlb]
    · cases lb
      · simp [validateLines, crossCheck, hlb]
      · have hrbf : rb = false := by
          cases rb
          · rfl
          · exact absurd hrb hnr
        subst hrbf
        simp [validateLines, crossCheck, hlb, hrb]
    · cases lb
      · simp [validateLines, crossCheck, hlb]
      · cases rb
        · simp [validateLines, crossCheck, hlb, hrb]
        · simp [validateLines, crossCheck, hlb, hrb, hg, not_lt.mpr hge]

/-- Witness for C3: two copies of a valid line sampled at identical x values
have minimum gap 0 < 300, and cross-validation invalidates both; two
undetected lines are returned unchanged. -/
theorem cross_validation_spec_witness :
    (validateLines wLine wLine =
      some ({ wLine with detected := false }, { wLine with detected := false })) ∧
    (validateLines (mkLine [] [] 3 true) (mkLine [] [] 3 true) =
      some (mkLine [] [] 3 true, mkLine [] [] 3 true)) :=
  ⟨(cross_validation_spec wLine wLine wLine_WF wLine_WF).1
      ⟨wLine_isValid, wLine_isValid, 0, by
        rw [show wLine.fitx = [500] from rfl]
        simp [minAbsGap], by norm_num⟩,
   (cross_validation_spec (mkLine [] [] 3 true) (mkLine [] [] 3 true)
      (mkLine_WF [] [] 3 true (by norm_num)) (mkLine_WF [] [] 3 true (by norm_num))).2
      (Or.inl (by rw [(isValid_total_on_empty_pixels 3 true).2]; simp))⟩


/-- C4: the warm-start polynomial-neighborhood search is selected if and only
if both previous-frame lines exist and are valid (first conjunct); the
warm-start search selects exactly the nonzero mask pixels whose x is within
the strict ±50 margin of the prior polynomial evaluated at the pixel y
(second conjunct); when both prior lines are valid, `find_lane_pixels` runs
the polynomial-neighborhood search on both sides (third conjunct); and
whenever the cold-start condition holds (frame 0, a missing line, or an
invalid line), `find_lane_pixels` runs the histogram-plus-sliding-window
search instead (fourth conjunct). -/
theorem strategy_selection_spec :
    (∀ (pl pr : Option Line), (∀ l, pl = some l → l.WF) → (∀ r, pr = some r → r.WF) →
      (coldStartCond pl pr = some false ↔
        (∃ l, pl = some l ∧ l.isValid = some true) ∧
        (∃ r, pr = some r ∧ r.isValid = some true))) ∧
    (∀ (m : Mask) (c : Coeffs) (p : ℕ × ℕ),
      p ∈ polySearch m c ↔
        p ∈ m.pixels ∧ |(p.2 : ℚ) - polyEval c (p.1 : ℚ)| < 50) ∧
    (∀ (m : Mask) (l r : Line) (lc rc : Coeffs),
      l.isValid = some true → r.isValid = some true →
      l.line_coefficients = some lc → r.line_coefficients = some rc →
      find_lane_pixels m (some l) (some r) =
        validateLines
          (mkLine ((polySearch m lc).map (fun (p : ℕ × ℕ) => ((p.2 : ℚ))))
            ((polySearch m lc).map (fun (p : ℕ × ℕ) => ((p.1 : ℚ)))) m.height true)
          (mkLine ((polySearch m rc).map (fun (p : ℕ × ℕ) => ((p.2 : ℚ))))
            ((polySearch m rc).map (fun (p : ℕ × ℕ) => ((p.1 : ℚ)))) m.height true)) ∧
    (∀ (m : Mask) (pl pr : Option Line), coldStartCond pl pr = some true →
      find_lane_pixels m pl pr =
        validateLines
          (mkLine ((slidingWindows m).1.map (fun (p : ℕ × ℕ) => ((p.2 : ℚ))))
            ((slidingWindows m).1.map (fun (p : ℕ × ℕ) => ((p.1 : ℚ)))) m.height true)
          (mkLine ((slidingWindows m).2.map (fun (p : ℕ × ℕ) => ((p.2 : ℚ))))
            ((slidingWindows m).2.map (fun (p : ℕ × ℕ) => ((p.1 : ℚ)))) m.height true)) := by
  refine ⟨?_, ?_, ?_, ?_⟩
  · intro pl pr hplW hprW
    cases pl with
    | none => simp [coldStartCond]
    | some l =>
      obtain ⟨lb, hlb⟩ := Option.isSome_iff_exists.mp (isValid_isSome_of_WF l (hplW l rfl))
      cases lb with
      | false =>
        simp [coldStartCond, hlb]
      | true =>
        cases pr with
        | none => simp [coldStartCond, hlb]
        | some r =>
          obtain ⟨rb, hrb⟩ := Option.isSome_iff_exists.mp (isValid_isSome_of_WF r (hprW r rfl))
          cases rb with
          | false =>
            simp [coldStartCond, hlb, hrb]
          | true => simp [coldStartCond, hlb, hrb]
  · intro m c p
    simp only [polySearch, List.mem_filter, Bool.and_eq_true, decide_eq_true_eq]
    constructor
    · rintro ⟨hm, h1, h2⟩
      exact ⟨hm, abs_sub_lt_iff.mpr ⟨by linarith, by linarith⟩⟩
    · rintro ⟨hm, habs⟩
      obtain ⟨h1, h2⟩ := abs_sub_lt_iff.mp habs
      exact ⟨hm, ⟨by linarith, by linarith⟩⟩
  · intro m l r lc rc hlv hrv hlc hrc
    simp [find_lane_pixels, coldStartCond, hlv, hrv, hlc, hrc, toQxy]
  · intro m pl pr hcold
    simp [find_lane_pixels, hcold, toQxy]


/-- Witness for C4: on a concrete mask, the cold start is taken when no prior
lines exist, and the warm start runs the polynomial-neighborhood search on
both sides when both prior lines are the valid `wLine`. -/
theorem strategy_selection_spec_witness :
    (find_lane_pixels mask0 none none =
      validateLines
        (mkLine ((slidingWindows mask0).1.map (fun (p : ℕ × ℕ) => ((p.2 : ℚ))))
          ((slidingWindows mask0).1.map (fun (p : ℕ × ℕ) => ((p.1 : ℚ)))) mask0.height true)
        (mkLine ((slidingWindows mask0).2.map (fun (p : ℕ × ℕ) => ((p.2 : ℚ))))
          ((slidingWindows mask0).2.map (fun (p : ℕ × ℕ) => ((p.1 : ℚ)))) mask0.height true)) ∧
    (find_lane_pixels mask0 (some wLine) (some wLine) =
      validateLines
        (mkLine ((polySearch mask0 (0, 0, 500)).map (fun (p : ℕ × ℕ) => ((p.2 : ℚ))))
          ((polySearch mask0 (0, 0, 500)).map (fun (p : ℕ × ℕ) => ((p.1 : ℚ)))) mask0.height true)
        (mkLine ((polySearch mask0 (0, 0, 500)).map (fun (p : ℕ × ℕ) => ((p.2 : ℚ))))
          ((polySearch mask0 (0, 0, 500)).map (fun (p : ℕ × ℕ) => ((p.1 : ℚ)))) mask0.height true)) :=
  ⟨strategy_selection_spec.2.2.2 mask0 none none rfl,
   strategy_selection_spec.2.2.1 mask0 wLine wLine (0, 0, 500) (0, 0, 500)
     wLine_isValid wLine_isValid rfl rfl⟩

theorem collectValid_eq (side : Side) :
    ∀ (lst : List Frame) (c : ℕ), (∀ f ∈ lst, (frameLine side f).WF) →
      collectValidLines side lst c =
        some (((lst.filter (fun f => decide ((frameLine side f).isValid = some true))).map
          (frameLine side)).take c)
  | [], c, _ => by cases c <;> simp [collectValidLines]
  | f :: rest, 0, _ => by simp [collectValidLines]
  | f :: rest, c + 1, hWF => by
    obtain ⟨b, hb⟩ := Option.isSome_iff_exists.mp
      (isValid_isSome_of_WF (frameLine side f) (hWF f (List.mem_cons_self f rest)))
    have hrest : ∀ g ∈ rest, (frameLine side g).WF :=
      fun g hg => hWF g (List.mem_cons_of_mem f hg)
    cases b with
    | true =>
      rw [List.filter_cons_of_pos (by simp [hb])]
      simp only [collectValidLines, hb, Option.some_bind, if_pos]
      rw [collectValid_eq side rest c hrest]
      simp
    | false =>
      rw [List.filter_cons_of_neg (by simp [hb])]
      have hstep : collectValidLines side (f :: rest) (c + 1) =
          collectValidLines side rest (c + 1) := by
        simp [collectValidLines, hb]
      rw [hstep]
      exact collectValid_eq side rest (c + 1) hrest

theorem getLastValidLines_eq (side : Side) (count : ℕ) (frames : List Frame)
    (hWF : ∀ f ∈ frames, (frameLine side f).WF) :
    getLastValidLines side count frames =
      some (((frames.reverse.filter
        (fun f => decide ((frameLine side f).isValid = some true))).map
          (frameLine side)).take count) := by
  unfold getLastValidLines
  exact collectValid_eq side frames.reverse count (fun f hf => hWF f (List.mem_reverse.mp hf))

/-- C6: for every history, side and requested count, `getLastValidLines`
returns (without failing) the lines obtained by walking the history backward
from the current frame, keeping the valid lines of that side in
most-recent-first order, skipping invalid ones, and stopping after `count`
lines or at the start of history; its length is
`min count (number of valid lines of that side)`, possibly zero. -/
theorem getLastValidLines_spec (side : Side) (count : ℕ) (frames : List Frame)
    (hWF : ∀ f ∈ frames, (frameLine side f).WF) :
    ∃ ls, getLastValidLines side count frames = some ls ∧
      ls = ((frames.reverse.filter
        (fun f => decide ((frameLine side f).isValid = some true))).map
          (frameLine side)).take count ∧
      ls.length = min count (countValid side frames) := by
  refine ⟨_, getLastValidLines_eq side count frames hWF, rfl, ?_⟩
  rw [List.length_take, List.length_map, List.filter_reverse, List.length_reverse]
  rfl


theorem seqCoeffs_eq (ls : List Line)
    (h : ∀ l ∈ ls, l.line_coefficients.isSome) :
    seqCoeffs ls = some (ls.filterMap (fun l => l.line_coefficients)) := by
  induction ls with
  | nil => rfl
  | cons l rest ih =>
    obtain ⟨c, hc⟩ := Option.isSome_iff_exists.mp (h l (List.mem_cons_self l rest))
    rw [List.filterMap_cons_some hc]
    simp only [seqCoeffs, hc, Option.some_bind,
      ih (fun x hx => h x (List.mem_cons_of_mem l hx))]
    rfl

theorem meanCoeffs_of_ne_nil (cs : List Coeffs) (h : cs ≠ []) :
    meanCoeffs cs =
      some (((cs.map (fun c => c.1)).sum) / cs.length,
            ((cs.map (fun c => c.2.1)).sum) / cs.length,
            ((cs.map (fun c => c.2.2)).sum) / cs.length) := by
  cases cs with
  | nil => exact absurd rfl h
  | cons c rest => rfl

theorem meanCoeffs_reverse (cs : List Coeffs) :
    meanCoeffs cs.reverse = meanCoeffs cs := by
  cases cs with
  | nil => rfl
  | cons c rest =>
    rw [meanCoeffs_of_ne_nil (c :: rest).reverse (by simp),
      meanCoeffs_of_ne_nil (c :: rest) (by simp)]
    simp [List.sum_reverse, add_comm]

theorem filterMap_coeffs_length (side : Side) (fl : List Frame)
    (h : ∀ f ∈ fl, (frameLine side f).line_coefficients.isSome) :
    (fl.filterMap (fun f => (frameLine side f).line_coefficients)).length = fl.length := by
  induction fl with
  | nil => rfl
  | cons f rest ih =>
    obtain ⟨c, hc⟩ := Option.isSome_iff_exists.mp (h f (List.mem_cons_self f rest))
    simp only [List.filterMap_cons, hc, List.length_cons,
      ih (fun x hx => h x (List.mem_cons_of_mem f hx))]


/-- C5: for a history with exactly `k` valid lines of a side, `0 < k ≤ 7`, the
smoothed estimate of that side is the coefficient-wise arithmetic mean of
exactly those `k` lines' coefficient triples; and when at least 7 valid lines
are already in the history, prepending one more (older) frame at the start of
history leaves the smoothed estimate unchanged. -/
theorem smoothedEstimate_spec (side : Side) (frames : List Frame)
    (hWF : ∀ f ∈ frames, (frameLine side f).WF) :
    (∀ k : ℕ, countValid side frames = k → 0 < k → k ≤ 7 →
      (validCoeffs side frames).length = k ∧
      smoothedEstimate side frames =
        some ((((validCoeffs side frames).map (fun c => c.1)).sum) / (k : ℚ),
              (((validCoeffs side frames).map (fun c => c.2.1)).sum) / (k : ℚ),
              (((validCoeffs side frames).map (fun c => c.2.2)).sum) / (k : ℚ))) ∧
    (∀ f₀ : Frame, (frameLine side f₀).WF → 7 ≤ countValid side frames →
      smoothedEstimate side (f₀ :: frames) = smoothedEstimate side frames) := by
  constructor
  · intro k hk hk0 hk7
    have hmemcf : ∀ f ∈ frames.filter
        (fun f => decide ((frameLine side f).isValid = some true)),
        (frameLine side f).line_coefficients.isSome := by
      intro f hf
      have hfv : (frameLine side f).isValid = some true := by
        simpa using (List.mem_filter.mp hf).2
      exact (fields_of_isValid_true _ hfv).2.1
    have hlenVC : (validCoeffs side frames).length = k := by
      unfold validCoeffs
      rw [filterMap_coeffs_length side _ hmemcf]
      exact hk
    refine ⟨hlenVC, ?_⟩
    have hGL := getLastValidLines_eq side AVERAGE_OVER_X_FRAMES frames hWF
    have hmem : ∀ l ∈ (frames.reverse.filter
        (fun f => decide ((frameLine side f).isValid = some true))).map (frameLine side),
        l.line_coefficients.isSome := by
      intro l hl
      obtain ⟨f, hf, rfl⟩ := List.mem_map.mp hl
      rw [List.filter_reverse] at hf
      exact hmemcf f (List.mem_reverse.mp hf)
    have hseq := seqCoeffs_eq _ hmem
    rw [List.filterMap_map] at hseq
    have htake : ((frames.reverse.filter
        (fun f => decide ((frameLine side f).isValid = some true))).map
          (frameLine side)).take AVERAGE_OVER_X_FRAMES =
        (frames.reverse.filter
          (fun f => decide ((frameLine side f).isValid = some true))).map (frameLine side) := by
      apply List.take_of_length_le
      rw [List.length_map, List.filter_reverse, List.length_reverse]
      show (countValid side frames) ≤ AVERAGE_OVER_X_FRAMES
      rw [hk]
      exact hk7
    have hfmrev : (frames.reverse.filter
        (fun f => decide ((frameLine side f).isValid = some true))).filterMap
          ((fun l => l.line_coefficients) ∘ (frameLine side)) =
        (validCoeffs side frames).reverse := by
      rw [List.filter_reverse, List.filterMap_reverse]
      rfl
    rw [hfmrev] at hseq
    have h1 : smoothedEstimate side frames = meanCoeffs ((validCoeffs side frames).reverse) := by
      unfold smoothedEstimate
      rw [hGL, htake]
      rw [List.filter_reverse, List.map_reverse] at hseq
      simp [hseq]
    rw [h1, meanCoeffs_reverse, meanCoeffs_of_ne_nil _ (by
      intro hnil
      rw [hnil] at hlenVC
      simp at hlenVC
      omega)]
    rw [hlenVC]
  · intro f₀ hWf₀ h7
    have hWFc : ∀ f ∈ f₀ :: frames, (frameLine side f).WF := by
      intro f hf
      rcases List.mem_cons.mp hf with rfl | hf2
      · exact hWf₀
      · exact hWF f hf2
    unfold smoothedEstimate
    rw [getLastValidLines_eq side _ _ hWFc, getLastValidLines_eq side _ _ hWF]
    have hlist : ((( f₀ :: frames).reverse.filter
        (fun f => decide ((frameLine side f).isValid = some true))).map
          (frameLine side)).take AVERAGE_OVER_X_FRAMES =
        ((frames.reverse.filter
          (fun f => decide ((frameLine side f).isValid = some true))).map
            (frameLine side)).take AVERAGE_OVER_X_FRAMES := by
      rw [List.reverse_cons, List.filter_append, List.map_append,
        List.take_append_eq_append_take]
      have hz : AVERAGE_OVER_X_FRAMES - ((frames.reverse.filter
          (fun f => decide ((frameLine side f).isValid = some true))).map
            (frameLine side)).length = 0 := by
        apply Nat.sub_eq_zero_of_le
        rw [List.length_map, List.filter_reverse, List.length_reverse]
        exact h7
      rw [hz, List.take_zero, List.append_nil]
    rw [hlist]
  

theorem frameLine_left (f : Frame) : frameLine Side.LEFT f = f.left_line := by
  simp [frameLine]

theorem frameLine_right (f : Frame) : frameLine Side.RIGHT f = f.right_line := by
  simp [frameLine]

theorem seqCurv_isSome (ls : List Line) (h : ∀ l ∈ ls, l.curvature_sq.isSome) :
    (seqCurv ls).isSome := by
  induction ls with
  | nil => rfl
  | cons l rest ih =>
    obtain ⟨c, hc⟩ := Option.isSome_iff_exists.mp (h l (List.mem_cons_self l rest))
    obtain ⟨cs, hcs⟩ := Option.isSome_iff_exists.mp
      (ih (fun x hx => h x (List.mem_cons_of_mem l hx)))
    simp [seqCurv, hc, hcs]

theorem getLowest_isSome (l : Line) (hW : l.WF) (hd : l.detected = true) :
    (l.getLowestLinePoint).isSome := by
  obtain ⟨hc, _, _, _, _, _, hfy, _⟩ := hW hd
  obtain ⟨c, hcc⟩ := Option.isSome_iff_exists.mp hc
  have hmax : l.fity.max?.isSome := by
    rw [Option.isSome_iff_ne_none]
    intro hn
    exact hfy (List.max?_eq_none_iff.mp hn)
  obtain ⟨y, hy⟩ := Option.isSome_iff_exists.mp hmax
  simp [Line.getLowestLinePoint, hy, hcc]

theorem mem_getLast_valid (side : Side) (c : ℕ) (fs : List Frame)
    (hWFs : ∀ f ∈ fs, (frameLine side f).WF) (ls : List Line)
    (h : getLastValidLines side c fs = some ls) :
    ∀ l ∈ ls, l.isValid = some true ∧ l.WF := by
  rw [getLastValidLines_eq side c fs hWFs] at h
  obtain rfl : ls = _ := (Option.some.inj h).symm
  intro l hl
  obtain ⟨f, hf, rfl⟩ := List.mem_map.mp (List.mem_of_mem_take hl)
  constructor
  · have := (List.mem_filter.mp hf).2
    simpa using this
  · exact hWFs f (List.mem_reverse.mp (List.mem_filter.mp hf).1)

theorem getLast_of_not_hasValid (side : Side) (c : ℕ) (fs : List Frame)
    (hWFs : ∀ f ∈ fs, (frameLine side f).WF) (h : ¬ hasValidLine side fs) :
    getLastValidLines side c fs = some [] := by
  rw [getLastValidLines_eq side c fs hWFs]
  have hnil : fs.reverse.filter (fun f => decide ((frameLine side f).isValid = some true)) = [] := by
    rw [List.filter_eq_nil_iff]
    intro f hf hva
    exact h ⟨f, List.mem_reverse.mp hf, by simpa using hva⟩
  rw [hnil]
  simp

theorem getLast_ne_nil_of_hasValid (side : Side) (c : ℕ) (fs : List Frame)
    (hWFs : ∀ f ∈ fs, (frameLine side f).WF) (h : hasValidLine side fs) (hc : 0 < c) :
    ∃ ls, getLastValidLines side c fs = some ls ∧ ls ≠ [] := by
  refine ⟨_, getLastValidLines_eq side c fs hWFs, ?_⟩
  intro hnil
  rcases List.take_eq_nil_iff.mp hnil with hc0 | hmapnil
  · omega
  · obtain ⟨f, hf, hv⟩ := h
    have : f ∈ fs.reverse.filter (fun f => decide ((frameLine side f).isValid = some true)) := by
      rw [List.mem_filter]
      exact ⟨List.mem_reverse.mpr hf, by simpa using hv⟩
    rw [List.map_eq_nil_iff.mp hmapnil] at this
    simp at this


theorem seqCoeffs_ne_nil (ls : List Line) (h : ∀ l ∈ ls, l.line_coefficients.isSome)
    (hne : ls ≠ []) : ∃ cs, seqCoeffs ls = some cs ∧ cs ≠ [] := by
  refine ⟨_, seqCoeffs_eq ls h, ?_⟩
  cases ls with
  | nil => exact absurd rfl hne
  | cons l rest =>
    obtain ⟨c, hc⟩ := Option.isSome_iff_exists.mp (h l (List.mem_cons_self l rest))
    simp [List.filterMap_cons, hc]



theorem currentLine_some (side : Side) (n : Line) (fs : List Frame) (b : Bool)
    (hWFs : ∀ f ∈ fs, (frameLine side f).WF) (hn : n.WF) (hb : n.isValid = some b)
    (hHas : hasValidLine side fs) :
    ∃ cl, currentLine side n fs = some cl ∧ cl.isValid = some true ∧ cl.WF := by
  cases b with
  | true =>
    refine ⟨n, ?_, hb, hn⟩
    simp [currentLine, hb]
  | false =>
    obtain ⟨ls, hls, hne⟩ := getLast_ne_nil_of_hasValid side 1 fs hWFs hHas (by omega)
    obtain ⟨l0, rest, rfl⟩ := List.exists_cons_of_ne_nil hne
    obtain ⟨hv, hW⟩ := mem_getLast_valid side 1 fs hWFs _ hls l0 (List.mem_cons_self _ _)
    refine ⟨l0, ?_, hv, hW⟩
    simp [currentLine, hb, hls]

theorem currentLine_none (side : Side) (n : Line) (fs : List Frame)
    (hWFs : ∀ f ∈ fs, (frameLine side f).WF) (hb : n.isValid = some false)
    (hNo : ¬ hasValidLine side fs) :
    currentLine side n fs = none := by
  simp [currentLine, hb, getLast_of_not_hasValid side 1 fs hWFs hNo]

theorem frameTail_isSome_iff (nl nr : Line) (fs : List Frame) (w : ℚ)
    (hWF : ∀ f ∈ fs, (frameLine Side.LEFT f).WF ∧ (frameLine Side.RIGHT f).WF)
    (hnl : nl.WF) (hnr : nr.WF)
    (hfr : ∃ f ∈ fs, frameLine Side.LEFT f = nl ∧ frameLine Side.RIGHT f = nr) :
    (frameTail nl nr fs w).isSome ↔
      (hasValidLine Side.LEFT fs ∧ hasValidLine Side.RIGHT fs) := by
  have hWFL : ∀ f ∈ fs, (frameLine Side.LEFT f).WF := fun f hf => (hWF f hf).1
  have hWFR : ∀ f ∈ fs, (frameLine Side.RIGHT f).WF := fun f hf => (hWF f hf).2
  obtain ⟨lb, hlb⟩ := Option.isSome_iff_exists.mp (isValid_isSome_of_WF nl hnl)
  obtain ⟨rb, hrb⟩ := Option.isSome_iff_exists.mp (isValid_isSome_of_WF nr hnr)
  obtain ⟨f, hfmem, hfl, hfrr⟩ := hfr
  have hlHas : lb = true → hasValidLine Side.LEFT fs := by
    intro hbt
    exact ⟨f, hfmem, by rw [hfl, hlb, hbt]⟩
  have hrHas : rb = true → hasValidLine Side.RIGHT fs := by
    intro hbt
    exact ⟨f, hfmem, by rw [hfrr, hrb, hbt]⟩
  by_cases hL : hasValidLine Side.LEFT fs
  · by_cases hR : hasValidLine Side.RIGHT fs
    · simp only [hL, hR, and_self, iff_true]
      obtain ⟨cl, hcl, hclv, hclW⟩ := currentLine_some Side.LEFT nl fs lb hWFL hnl hlb hL
      obtain ⟨cr, hcr, hcrv, hcrW⟩ := currentLine_some Side.RIGHT nr fs rb hWFR hnr hrb hR
      obtain ⟨L7l, hL7l, hL7lne⟩ := getLast_ne_nil_of_hasValid Side.LEFT
        AVERAGE_OVER_X_FRAMES fs hWFL hL (by norm_num [AVERAGE_OVER_X_FRAMES])
      obtain ⟨L7r, hL7r, hL7rne⟩ := getLast_ne_nil_of_hasValid Side.RIGHT
        AVERAGE_OVER_X_FRAMES fs hWFR hR (by norm_num [AVERAGE_OVER_X_FRAMES])
      have hL7lmem := mem_getLast_valid Side.LEFT AVERAGE_OVER_X_FRAMES fs hWFL L7l hL7l
      have hL7rmem := mem_getLast_valid Side.RIGHT AVERAGE_OVER_X_FRAMES fs hWFR L7r hL7r
      have hL7lco : ∀ l ∈ L7l, l.line_coefficients.isSome :=
        fun l hl => (fields_of_isValid_true l (hL7lmem l hl).1).2.1
      have hL7rco : ∀ l ∈ L7r, l.line_coefficients.isSome :=
        fun l hl => (fields_of_isValid_true l (hL7rmem l hl).1).2.1
      obtain ⟨csl, hcsl, hcslne⟩ := seqCoeffs_ne_nil L7l hL7lco hL7lne
      obtain ⟨csr, hcsr, hcsrne⟩ := seqCoeffs_ne_nil L7r hL7rco hL7rne
      have hml := meanCoeffs_of_ne_nil csl hcslne
      have hmr := meanCoeffs_of_ne_nil csr hcsrne
      obtain ⟨cvl, hcvl⟩ := Option.isSome_iff_exists.mp (seqCurv_isSome L7l
        (fun l hl => ((hL7lmem l hl).2 (fields_of_isValid_true l (hL7lmem l hl).1).1).2.2.1))
      obtain ⟨cvr, hcvr⟩ := Option.isSome_iff_exists.mp (seqCurv_isSome L7r
        (fun l hl => ((hL7rmem l hl).2 (fields_of_isValid_true l (hL7rmem l hl).1).1).2.2.1))
      obtain ⟨lowl, hlowl⟩ := Option.isSome_iff_exists.mp
        (getLowest_isSome cl hclW (fields_of_isValid_true cl hclv).1)
      obtain ⟨lowr, hlowr⟩ := Option.isSome_iff_exists.mp
        (getLowest_isSome cr hcrW (fields_of_isValid_true cr hcrv).1)
      have hoff : measure_offset cl cr w =
          some (pyRound2 ((w / 2 - (lowr + lowl) / 2) * METERS_PER_PIXEL_X)) := by
        simp [measure_offset, hlowl, hlowr]
      simp [frameTail, hcl, hcr, hL7l, hL7r, hcsl, hcsr, hml, hmr, hcvl, hcvr, hoff]
    · simp only [hL, hR, and_false, iff_false]
      have hrbf : rb = false := by
        cases rb with
        | true => exact absurd (hrHas rfl) hR
        | false => rfl
      subst hrbf
      obtain ⟨cl, hcl, hclv, hclW⟩ := currentLine_some Side.LEFT nl fs lb hWFL hnl hlb hL
      have hcrn := currentLine_none Side.RIGHT nr fs hWFR hrb hR
      simp [frameTail, hcl, hcrn]
  · simp only [hL, false_and, iff_false]
    have hlbf : lb = false := by
      cases lb with
      | true => exact absurd (hlHas rfl) hL
      | false => rfl
    subst hlbf
    have hcln := currentLine_none Side.LEFT nl fs hWFL hlb hL
    simp [frameTail, hcln]


theorem coldStartCond_isSome (pl pr : Option Line)
    (hl : ∀ l, pl = some l → l.WF) (hr : ∀ r, pr = some r → r.WF) :
    (coldStartCond pl pr).isSome := by
  cases pl with
  | none => rfl
  | some l =>
    obtain ⟨lb, hlb⟩ := Option.isSome_iff_exists.mp (isValid_isSome_of_WF l (hl l rfl))
    cases lb with
    | false => simp [coldStartCond, hlb]
    | true =>
      cases pr with
      | none => simp [coldStartCond, hlb]
      | some r =>
        obtain ⟨rb, hrb⟩ := Option.isSome_iff_exists.mp (isValid_isSome_of_WF r (hr r rfl))
        simp [coldStartCond, hlb, hrb]

theorem coldStartCond_false_iff (pl pr : Option Line)
    (hl : ∀ l, pl = some l → l.WF) (hr : ∀ r, pr = some r → r.WF) :
    (coldStartCond pl pr = some false ↔
      (∃ l, pl = some l ∧ l.isValid = some true) ∧
      (∃ r, pr = some r ∧ r.isValid = some true)) := by
  cases pl with
  | none => simp [coldStartCond]
  | some l =>
    obtain ⟨lb, hlb⟩ := Option.isSome_iff_exists.mp (isValid_isSome_of_WF l (hl l rfl))
    cases lb with
    | false =>
      simp [coldStartCond, hlb]
    | true =>
      cases pr with
      | none => simp [coldStartCond, hlb]
      | some r =>
        obtain ⟨rb, hrb⟩ := Option.isSome_iff_exists.mp (isValid_isSome_of_WF r (hr r rfl))
        cases rb with
        | false => simp [coldStartCond, hlb, hrb]
        | true => simp [coldStartCond, hlb, hrb]

theorem validateLines_isSome (l r : Line) (hl : l.WF) (hr : r.WF) :
    ∃ p, validateLines l r = some p ∧ p.1.WF ∧ p.2.WF := by
  obtain ⟨lb, hlb⟩ := Option.isSome_iff_exists.mp (isValid_isSome_of_WF l hl)
  cases lb with
  | false =>
    refine ⟨(l, r), ?_, hl, hr⟩
    simp [validateLines, crossCheck, hlb]
  | true =>
    obtain ⟨rb, hrb⟩ := Option.isSome_iff_exists.mp (isValid_isSome_of_WF r hr)
    cases rb with
    | false =>
      refine ⟨(l, r), ?_, hl, hr⟩
      simp [validateLines, crossCheck, hlb, hrb]
    | true =>
      have hfl : l.fitx ≠ [] := (hl (fields_of_isValid_true l hlb).1).2.2.2.2.2.2.2
      have hfr : r.fitx ≠ [] := (hr (fields_of_isValid_true r hrb).1).2.2.2.2.2.2.2
      obtain ⟨g, hg⟩ := Option.isSome_iff_exists.mp (show (minAbsGap r.fitx l.fitx).isSome by
        rw [Option.isSome_iff_ne_none]
        intro hn
        unfold minAbsGap at hn
        rw [List.min?_eq_none_iff] at hn
        rcases List.zipWith_eq_nil_iff.mp hn with h | h
        · exact hfr h
        · exact hfl h)
      by_cases hglt : g < 300
      · refine ⟨({ l with detected := false }, { r with detected := false }), ?_,
          WF_detected_false l, WF_detected_false r⟩
        simp [validateLines, crossCheck, hlb, hrb, hg, hglt]
      · refine ⟨(l, r), ?_, hl, hr⟩
        simp [validateLines, crossCheck, hlb, hrb, hg, hglt]

theorem find_lane_pixels_some (m : Mask) (pl pr : Option Line)
    (hl : ∀ l, pl = some l → l.WF) (hr : ∀ r, pr = some r → r.WF) (hh : 0 < m.height) :
    ∃ a b, find_lane_pixels m pl pr = some (a, b) ∧ a.WF ∧ b.WF := by
  obtain ⟨cb, hcb⟩ := Option.isSome_iff_exists.mp (coldStartCond_isSome pl pr hl hr)
  cases cb with
  | true =>
    obtain ⟨p, hp, hpW1, hpW2⟩ := validateLines_isSome
      (mkLine ((slidingWindows m).1.map (fun (q : ℕ × ℕ) => ((q.2 : ℚ))))
        ((slidingWindows m).1.map (fun (q : ℕ × ℕ) => ((q.1 : ℚ)))) m.height true)
      (mkLine ((slidingWindows m).2.map (fun (q : ℕ × ℕ) => ((q.2 : ℚ))))
        ((slidingWindows m).2.map (fun (q : ℕ × ℕ) => ((q.1 : ℚ)))) m.height true)
      (mkLine_WF _ _ m.height true hh) (mkLine_WF _ _ m.height true hh)
    refine ⟨p.1, p.2, ?_, hpW1, hpW2⟩
    simp [find_lane_pixels, hcb, toQxy, hp]
  | false =>
    obtain ⟨⟨l, rfl, hlv⟩, ⟨r, rfl, hrv⟩⟩ := (coldStartCond_false_iff pl pr hl hr).mp hcb
    obtain ⟨lc, hlc⟩ := Option.isSome_iff_exists.mp (fields_of_isValid_true l hlv).2.1
    obtain ⟨rc, hrc⟩ := Option.isSome_iff_exists.mp (fields_of_isValid_true r hrv).2.1
    obtain ⟨p, hp, hpW1, hpW2⟩ := validateLines_isSome
      (mkLine ((polySearch m lc).map (fun (q : ℕ × ℕ) => ((q.2 : ℚ))))
        ((polySearch m lc).map (fun (q : ℕ × ℕ) => ((q.1 : ℚ)))) m.height true)
      (mkLine ((polySearch m rc).map (fun (q : ℕ × ℕ) => ((q.2 : ℚ))))
        ((polySearch m rc).map (fun (q : ℕ × ℕ) => ((q.1 : ℚ)))) m.height true)
      (mkLine_WF _ _ m.height true hh) (mkLine_WF _ _ m.height true hh)
    refine ⟨p.1, p.2, ?_, hpW1, hpW2⟩
    simp [find_lane_pixels, hcb, hlc, hrc, toQxy, hp]

theorem mem_of_getLastQ {α : Type} {l : List α} {a : α} (h : l.getLast? = some a) :
    a ∈ l := by
  obtain ⟨hne, heq⟩ := List.mem_getLast?_eq_getLast (show a ∈ l.getLast? from h)
  rw [heq]
  exact List.getLast_mem hne

/-- C2 (amended): under a well-formed history and a positive image height,
`process_frame` always appends exactly one new frame record to the history;
the call completes normally if and only if, after the append, the history
contains at least one valid line for each side — otherwise the unchecked
`getLastValidLines(...)[0]` indexing (or the mean over an empty coefficient
list) fails, which is exactly the defect the spec documents. -/
theorem process_frame_spec (frames : List Frame) (m : Mask)
    (hWF : WFhistory frames) (hh : 0 < m.height) :
    ∃ fr outs, process_frame frames m = some (frames ++ [fr], outs) ∧
      (outs.isSome ↔
        (hasValidLine Side.LEFT (frames ++ [fr]) ∧
         hasValidLine Side.RIGHT (frames ++ [fr]))) := by
  have hpl : ∀ l, (frames.getLast?).map (fun f => f.left_line) = some l → l.WF := by
    intro l hl
    rcases hgl : frames.getLast? with _ | f
    · rw [hgl] at hl
      simp at hl
    · rw [hgl] at hl
      simp at hl
      rw [← hl]
      exact (hWF f (mem_of_getLastQ hgl)).1
  have hpr : ∀ r, (frames.getLast?).map (fun f => f.right_line) = some r → r.WF := by
    intro r hr2
    rcases hgl : frames.getLast? with _ | f
    · rw [hgl] at hr2
      simp at hr2
    · rw [hgl] at hr2
      simp at hr2
      rw [← hr2]
      exact (hWF f (mem_of_getLastQ hgl)).2
  obtain ⟨a, b, hflp, haW, hbW⟩ := find_lane_pixels_some m _ _ hpl hpr hh
  refine ⟨⟨frames.length, a, b⟩,
    frameTail a b (frames ++ [⟨frames.length, a, b⟩]) (m.width : ℚ), ?_, ?_⟩
  · simp [process_frame, hflp]
  · apply frameTail_isSome_iff
    · intro f hf
      rcases List.mem_append.mp hf with hf2 | hf2
      · exact ⟨by rw [frameLine_left]; exact (hWF f hf2).1,
          by rw [frameLine_right]; exact (hWF f hf2).2⟩
      · have : f = ⟨frames.length, a, b⟩ := by simpa using hf2
        subst this
        exact ⟨by rw [frameLine_left]; exact haW, by rw [frameLine_right]; exact hbW⟩
    · exact haW
    · exact hbW
    · exact ⟨⟨frames.length, a, b⟩, by simp, frameLine_left _, frameLine_right _⟩


/-- C2 (counterexample): on frame 0 with an empty mask, `process_frame` does
append its one frame record (history length becomes 1), but the call does not
return normally: both fitted lines are invalid, no valid prior line exists,
and the unchecked `[0]` lookup fails, so the outputs are `none`.  This
contradicts the claim that the call has no externally observable failure mode
regardless of the prior history. -/
theorem process_frame_crashes_without_valid_history :
    (process_frame [] mask0).map (fun p => (p.1.length, p.2.isSome)) = some (1, false) := by
  decide

/-- Witness for C2 as amended, at the concrete input of an empty history and
an empty mask of height 3. -/
theorem process_frame_spec_witness :
    ∃ fr outs, process_frame [] mask0 = some ([] ++ [fr], outs) ∧
      (outs.isSome ↔
        (hasValidLine Side.LEFT ([] ++ [fr]) ∧ hasValidLine Side.RIGHT ([] ++ [fr]))) :=
  process_frame_spec [] mask0 (by intro f hf; simp at hf) (by norm_num [mask0])


theorem badLine_isValid : badLine.isValid = some false := by
  unfold badLine
  rw [mkLine_of_neg [] [] 3 true (Or.inl rfl)]
  rfl

theorem badLine_WF : badLine.WF := mkLine_WF [] [] 3 true (by norm_num)



theorem histC6_WF : ∀ f ∈ [frameA, frameB], (frameLine Side.LEFT f).WF := by
  intro f hf
  simp only [List.mem_cons, List.not_mem_nil, or_false] at hf
  rcases hf with rfl | rfl
  · rw [frameLine_left]
    exact wLine_WF
  · rw [frameLine_left]
    exact badLine_WF

/-- Witness for C6: in a two-frame history whose newest frame has an invalid
left line and whose older frame has the valid `wLine`, requesting 2 left
lines returns exactly `[wLine]`, of length `min 2 1 = 1`. -/
theorem getLastValidLines_spec_witness :
    ∃ ls, getLastValidLines Side.LEFT 2 [frameA, frameB] = some ls ∧
      ls = [wLine] ∧ ls.length = 1 := by
  obtain ⟨ls, h1, h2, h3⟩ := getLastValidLines_spec Side.LEFT 2 [frameA, frameB] histC6_WF
  refine ⟨ls, h1, ?_, ?_⟩
  · rw [h2]
    simp [frameA, frameB, frameLine_left, wLine_isValid, badLine_isValid]
  · rw [h3]
    simp [countValid, frameA, frameB, frameLine_left, wLine_isValid, badLine_isValid]

theorem hist7_WF : ∀ f ∈ List.replicate 7 frameA, (frameLine Side.LEFT f).WF := by
  intro f hf
  rw [List.eq_of_mem_replicate hf, frameLine_left]
  exact wLine_WF

theorem hist7_count : countValid Side.LEFT (List.replicate 7 frameA) = 7 := by
  unfold countValid
  have hfil : ((List.replicate 7 frameA).filter
      (fun f => decide ((frameLine Side.LEFT f).isValid = some true))) =
      List.replicate 7 frameA := by
    rw [List.filter_eq_self]
    intro f hf
    rw [List.eq_of_mem_replicate hf]
    simp [frameA, frameLine_left, wLine_isValid]
  rw [hfil, List.length_replicate]

/-- Witness for C5: a single-valid-line history gives the mean of exactly that
line, and prepending an older frame to a history that already has 7 valid
lines leaves the smoothed estimate unchanged. -/
theorem smoothedEstimate_spec_witness :
    ((validCoeffs Side.LEFT [frameA]).length = 1 ∧
      smoothedEstimate Side.LEFT [frameA] =
        some ((((validCoeffs Side.LEFT [frameA]).map (fun c => c.1)).sum) / (1 : ℚ),
              (((validCoeffs Side.LEFT [frameA]).map (fun c => c.2.1)).sum) / (1 : ℚ),
              (((validCoeffs Side.LEFT [frameA]).map (fun c => c.2.2)).sum) / (1 : ℚ))) ∧
    smoothedEstimate Side.LEFT (frameB :: List.replicate 7 frameA) =
      smoothedEstimate Side.LEFT (List.replicate 7 frameA) :=
  ⟨(smoothedEstimate_spec Side.LEFT [frameA] (by
      intro f hf
      simp only [List.mem_cons, List.not_mem_nil, or_false] at hf
      subst hf
      rw [frameLine_left]
      exact wLine_WF)).1 1
    (by simp [countValid, frameA, frameLine_left, wLine_isValid]) (by norm_num) (by norm_num),
   (smoothedEstimate_spec Side.LEFT (List.replicate 7 frameA) hist7_WF).2 frameB
    (by rw [frameLine_left]; exact badLine_WF) (by rw [hist7_count])⟩

end P2
